import Mathlib

/-!
Verification of the optimistic-update registry and merge engine of the
`query-optimistic` repository.

The embedding translates `src/core/channel.ts` (the `CollectionChannel` /
`EntityChannel` classes and the `QueryRegistry` with its `applyUpdate` /
`applyCollectionUpdate` methods) and the optimistic part of
`src/react/use-mutation.ts` (`onMutate` payload construction and the
`onSuccess` sync-replace pass) into pure Lean functions.

Modelling decisions, shared by all claims:

* Items of a collection are modelled generically by a type `T`; where JS
  object semantics matter (shallow merge via spread, the `_optimistic`
  marker) we instantiate `T` with `Item`, an ordered string-keyed record
  together with an optional `_optimistic` marker, exactly mirroring the
  `Optimistic<T>` type of `src/core/types.ts`.
* A registered binding (`RegisteredEntry` in `src/core/registry.ts`) is an
  `Entry`: its kind (`collection` / `paginated` / `entity`), its
  `def.id` extractor where the kind has one, and the value currently held
  by the external store for it (`getData`/`setData` are modelled by the
  entry owning its stored value; distinct entries are distinct cells).
  `undefined` query data is `Option.none`.
* The set of bindings registered under one query name, in the registry's
  iteration (insertion) order, is a `List (Entry T P)`; `applyUpdate`
  returns the new list together with the list of rollback closures, a
  rollback being the pair (position of the binding, captured snapshot),
  since the JS closure `() => entry.setData(() => previous)` is determined
  by exactly those two pieces of data.
* `nanoid()` results (speculative tokens) are modelled as `String`
  parameters: the generator is an external collaborator.
* JS truthiness is preserved where it matters: `payload.id ? A : B`
  treats the empty string as absent.
-/

namespace QueryOpt

/-- The five actions of `OptimisticAction` in `src/core/types.ts`. -/
inductive Action where
  | prepend
  | append
  | update
  | delete
  | replace
  deriving DecidableEq, Repr

/-- The `payload` argument of `QueryRegistry.applyUpdate`:
`{ data?, id?, where?, update? }`.  `wher` models the `where` field
(`where` is a reserved word in Lean). -/
structure Payload (T : Type) where
  data : Option T
  id : Option String
  wher : Option (T → Bool)
  update : Option (T → T)

/-- The `_optimistic` marker `{ id, status }` attached to speculative items
(`Optimistic<T>` in `src/core/types.ts`; `status` is one of the string
literals `'pending' | 'success' | 'error'`). -/
structure Marker where
  id : String
  status : String
  deriving DecidableEq, Repr

/-- A JS data object: an ordered record of string-valued fields plus the
optional `_optimistic` marker property. -/
structure Item where
  fields : List (String × String)
  optimistic : Option Marker
  deriving DecidableEq, Repr

/-- Look up a field of a record. -/
def lookupField : List (String × String) → String → Option String
  | [], _ => none
  | (k0, v0) :: rest, k => if k0 = k then some v0 else lookupField rest k

/-- Overwrite field `k` with `v` when present, else add it at the end:
the effect of spreading `{ k: v }` onto an object. -/
def setField : List (String × String) → String → String → List (String × String)
  | [], k, v => [(k, v)]
  | (k0, v0) :: rest, k, v =>
    if k0 = k then (k, v) :: rest else (k0, v0) :: setField rest k v

/-- The record part of the JS object spread `{...a, ...b}`. -/
def mergeFields (a b : List (String × String)) : List (String × String) :=
  b.foldl (fun acc kv => setField acc kv.1 kv.2) a

/-- Shallow merge `{...e, ...d}` on items: `d`'s fields override `e`'s,
and `d`'s `_optimistic` property (when it has one) overrides `e`'s. -/
def mergeItem (e d : Item) : Item :=
  ⟨mergeFields e.fields d.fields,
   match d.optimistic with
   | some m => some m
   | none => e.optimistic⟩

/-- `{...data, _optimistic: { id: token, status: 'pending' }}`: the stamping
performed by `CollectionChannel.prepend`/`append` and by `useMutation`'s
`onMutate`. -/
def stampItem (d : Item) (tok : String) : Item :=
  ⟨d.fields, some ⟨tok, "pending"⟩⟩

/-- The token carried by an item: `item._optimistic?.id`. -/
def tokenOf (it : Item) : Option String :=
  it.optimistic.map Marker.id

/-- An id extractor in the style of the `id: (item) => item.id` option of
`defineCollection`; used for the concrete instances. -/
def idOf (it : Item) : String :=
  (lookupField it.fields "id").getD ""

/-- The matching condition used by the `update`, `delete` and `replace`
cases of `applyCollectionUpdate`:
`payload.id ? getId(item) === payload.id : payload.where?.(item)`.
A JS ternary tests truthiness, so an empty-string `payload.id` falls
through to the predicate, exactly as `undefined` does. -/
def selMatch {T : Type} (getId : T → String) (p : Payload T) (item : T) : Bool :=
  match p.id with
  | some tid =>
    if tid = "" then
      match p.wher with
      | some w => w item
      | none => false
    else getId item = tid
  | none =>
    match p.wher with
    | some w => w item
    | none => false

/-- `QueryRegistry.applyCollectionUpdate(items, action, payload, getId)`,
the pure per-array merge engine.  `mrg` is the shallow-merge
`(item, data) => ({...item, ...payload.data})` used by the `update` case,
abstracted over the item type (it is `mergeItem` at `T = Item`). -/
def applyCollectionUpdate {T : Type} (mrg : T → T → T) (items : List T)
    (action : Action) (p : Payload T) (getId : T → String) : List T :=
  match action with
  | .prepend =>
    match p.data with
    | some d => d :: items
    | none => items
  | .append =>
    match p.data with
    | some d => items ++ [d]
    | none => items
  | .update =>
    items.map (fun item =>
      if selMatch getId p item then
        match p.update with
        | some f => f item
        | none =>
          match p.data with
          | some d => mrg item d
          | none => item
      else item)
  | .delete =>
    items.filter (fun item => ! selMatch getId p item)
  | .replace =>
    items.map (fun item =>
      if selMatch getId p item then
        match p.data with
        | some d => d
        | none => item
      else item)

/-- Pages plus page parameters of a paginated (infinite) query result:
`{ pages: T[][], pageParams: unknown[] }`. -/
structure Pag (T P : Type) where
  pages : List (List T)
  pageParams : List P

/-- One registered binding (`RegisteredEntry`): its kind, its `def.id`
extractor for collection kinds, and the value the external store currently
holds for it (`getData()`, with `undefined` as `none`). -/
inductive Entry (T P : Type) where
  | collection (getId : T → String) (value : Option (List T))
  | paginated (getId : T → String) (value : Option (Pag T P))
  | entity (value : Option T)

/-- A snapshot of a binding's stored value, as captured by
`const previous = entry.getData()`. -/
inductive EntryVal (T P : Type) where
  | collection (value : Option (List T))
  | paginated (value : Option (Pag T P))
  | entity (value : Option T)

/-- The snapshot of an entry's current value. -/
def Entry.val {T P : Type} : Entry T P → EntryVal T P
  | .collection _ v => .collection v
  | .paginated _ v => .paginated v
  | .entity v => .entity v

/-- Restore a snapshot into a binding: the effect of
`entry.setData(() => previous)`.  A snapshot produced for an entry always
matches the entry's kind; on a (never occurring) mismatch the entry is
left unchanged. -/
def Entry.withVal {T P : Type} : Entry T P → EntryVal T P → Entry T P
  | .collection g _, .collection v => .collection g v
  | .paginated g _, .paginated v => .paginated g v
  | .entity _, .entity v => .entity v
  | e, _ => e

/-- The update `applyUpdate` performs on a single registered entry:

* collection: `setData(prev => !prev ? prev : applyCollectionUpdate(...))`;
* paginated: `setData(prev => !prev ? prev :
  ({...prev, pages: prev.pages.map((page, i) => i === 0 ? applyCollectionUpdate(page, ...) : page)}))`;
* entity: apply `payload.update` when the action is `'update'` and an
  update function is present (`prev ? update(prev) : prev`), substitute
  `payload.data` when the action is `'replace'` and data is present
  (unconditionally, even over `undefined`), otherwise do nothing. -/
def applyEntry {T P : Type} (mrg : T → T → T) (a : Action) (p : Payload T) :
    Entry T P → Entry T P
  | .collection getId v =>
    .collection getId
      (match v with
       | none => none
       | some items => some (applyCollectionUpdate mrg items a p getId))
  | .paginated getId v =>
    .paginated getId
      (match v with
       | none => none
       | some pg =>
         some ⟨(match pg.pages with
                | [] => []
                | p0 :: rest => applyCollectionUpdate mrg p0 a p getId :: rest),
               pg.pageParams⟩)
  | .entity v =>
    .entity
      (match a, p.update, p.data with
       | .update, some f, _ => v.map f
       | .replace, _, some d => some d
       | _, _, _ => v)

/-- The rollback closures pushed by the `applyUpdate` loop for the entries
from position `n` on: for each entry, in scan order, the pair of its
position and the snapshot `previous` captured before the apply. -/
def rollbacksFrom {T P : Type} (n : Nat) : List (Entry T P) → List (Nat × EntryVal T P)
  | [] => []
  | e :: rest => (n, e.val) :: rollbacksFrom (n + 1) rest

/-- `QueryRegistry.applyUpdate(name, action, payload)` restricted to the
bindings registered under one name (in iteration order): for every entry
the loop pushes a rollback capturing the entry's previous value and then
writes the updated value; the rollback list is returned.  Entries are
independent cells, so the interleaved loop equals the two maps below. -/
def applyUpdate {T P : Type} (mrg : T → T → T) (a : Action) (p : Payload T)
    (s : List (Entry T P)) : List (Entry T P) × List (Nat × EntryVal T P) :=
  (s.map (applyEntry mrg a p), rollbacksFrom 0 s)

/-- Write snapshot `v` into the entry at position `i` (out-of-range writes
are lost, matching a rollback whose entry is gone). -/
def setValAt {T P : Type} : List (Entry T P) → Nat → EntryVal T P → List (Entry T P)
  | [], _, _ => []
  | e :: rest, 0, v => e.withVal v :: rest
  | e :: rest, Nat.succ n, v => e :: setValAt rest n v

/-- `rollbacks.forEach(rb => rb())`: run every rollback closure in list
order against the current state. -/
def runRollbacks {T P : Type} (rbs : List (Nat × EntryVal T P))
    (s : List (Entry T P)) : List (Entry T P) :=
  rbs.foldl (fun acc rb => setValAt acc rb.1 rb.2) s

/-- `CollectionChannel.prepend(data)`: stamp the channel's per-instance
`optimisticId` (`tok`) onto the data and apply a `'prepend'` update.
The channel instance is represented by its token, generated once by
`nanoid()` at construction. -/
def chPrepend (tok : String) (d : Item) (s : List (Entry Item Nat)) :
    List (Entry Item Nat) × List (Nat × EntryVal Item Nat) :=
  applyUpdate mergeItem .prepend ⟨some (stampItem d tok), none, none, none⟩ s

/-- One entry of the `transactions` list collected by the batched channel
of `useMutation` (`MutationTransaction`). -/
structure Tx where
  action : Action
  data : Option Item
  id : Option String
  wher : Option (Item → Bool)
  update : Option (Item → Item)
  sync : Bool

/-- The payload `useMutation`'s `onMutate` hands to `registry.applyUpdate`
for one transaction: the data is stamped with the mutation's fresh
`optimisticId` (`tok`), and when no update function was supplied but data
was, an update function merging the stamped data is synthesized
(`(item) => ({...item, ...optimisticData})`). -/
def mkOnMutatePayload (tx : Tx) (tok : String) : Payload Item :=
  ⟨tx.data.map (fun d => stampItem d tok),
   tx.id,
   tx.wher,
   match tx.update with
   | some f => some f
   | none =>
     match tx.data.map (fun d => stampItem d tok) with
     | some od => some (fun it => mergeItem it od)
     | none => none⟩

/-- The payload of the sync-replace pass in `useMutation`'s `onSuccess`:
`{ where: (item) => item._optimistic?.id === optimisticId, update: () => data }`. -/
def syncPayload (tok : String) (resp : Item) : Payload Item :=
  ⟨none, none,
   some (fun it =>
     match it.optimistic with
     | some m => m.id = tok
     | none => false),
   some (fun _ => resp)⟩

/-- Concrete item `{id:'1', name:'a'}` used by the scenario claims. -/
def itemA : Item := ⟨[("id", "1"), ("name", "a")], none⟩

/-- Concrete item `{id:'2', name:'b'}` used by the scenario claims. -/
def itemB : Item := ⟨[("id", "2"), ("name", "b")], none⟩

/-- Concrete server-response item `{id:'9'}` with no optimistic marker. -/
def itemR : Item := ⟨[("id", "9")], none⟩

/-- Concrete entity value `{a:'1'}`. -/
def itemVA : Item := ⟨[("a", "1")], none⟩

/-- Concrete partial item `{b:'2'}`. -/
def itemDB : Item := ⟨[("b", "2")], none⟩

/-- Concrete item `{id:'x'}`. -/
def itemX : Item := ⟨[("id", "x")], none⟩

/-- Concrete item `{id:'y'}`. -/
def itemY : Item := ⟨[("id", "y")], none⟩

example :
    applyCollectionUpdate mergeItem [(⟨[("id", "1"), ("name", "a")], none⟩ : Item)]
      .prepend ⟨some ⟨[("id", "2"), ("name", "b")], none⟩, none, none, none⟩ idOf
      = [⟨[("id", "2"), ("name", "b")], none⟩, ⟨[("id", "1"), ("name", "a")], none⟩] := by
  decide

example :
    applyCollectionUpdate mergeItem
      [(⟨[("id", "1"), ("v", "1")], none⟩ : Item), ⟨[("id", "2"), ("v", "2")], none⟩]
      .update ⟨none, some "2", none, some (fun it => ⟨setField it.fields "v" "99", it.optimistic⟩)⟩ idOf
      = [⟨[("id", "1"), ("v", "1")], none⟩, ⟨[("id", "2"), ("v", "99")], none⟩] := by
  decide

theorem Entry.withVal_val_self {T P : Type} (e : Entry T P) : e.withVal e.val = e := by
  cases e <;> rfl

theorem Entry.withVal_applyEntry_val {T P : Type} (mrg : T → T → T) (a : Action)
    (p : Payload T) (e : Entry T P) :
    (applyEntry mrg a p e).withVal e.val = e := by
  cases e <;> rfl

theorem Entry.withVal_applyEntry2_val {T P : Type} (mrg1 mrg2 : T → T → T)
    (a1 a2 : Action) (p1 p2 : Payload T) (e : Entry T P) :
    (applyEntry mrg2 a2 p2 (applyEntry mrg1 a1 p1 e)).withVal e.val = e := by
  cases e <;> rfl

theorem setValAt_append {T P : Type} (pre : List (Entry T P)) (b : Entry T P)
    (rest : List (Entry T P)) (v : EntryVal T P) :
    setValAt (pre ++ b :: rest) pre.length v = pre ++ b.withVal v :: rest := by
  induction pre with
  | nil => rfl
  | cons e pre ih => simp [setValAt, ih]

theorem rollbacksFrom_length {T P : Type} (s : List (Entry T P)) :
    ∀ (n : Nat), (rollbacksFrom n s).length = s.length := by
  induction s with
  | nil => intro n; rfl
  | cons a s ih => intro n; simp [rollbacksFrom, ih (n + 1)]

theorem rollbacksFrom_getElem? {T P : Type} (s : List (Entry T P)) :
    ∀ (n i : Nat), (rollbacksFrom n s)[i]? = (s[i]?).map (fun e => (n + i, e.val)) := by
  induction s with
  | nil => intro n i; simp [rollbacksFrom]
  | cons a s ih =>
    intro n i
    cases i with
    | zero => simp [rollbacksFrom]
    | succ i =>
      have h : n + 1 + i = n + (i + 1) := by omega
      simp [rollbacksFrom, ih (n + 1) i, h]

theorem runRollbacks_restore_aux {T P : Type} (s : List (Entry T P)) :
    ∀ (u pre : List (Entry T P)),
      u.length = s.length →
      (∀ (i : Nat) (hs : i < s.length) (hu : i < u.length),
        (u.get ⟨i, hu⟩).withVal ((s.get ⟨i, hs⟩).val) = s.get ⟨i, hs⟩) →
      List.foldl (fun acc rb => setValAt acc rb.1 rb.2) (pre ++ u)
          (rollbacksFrom pre.length s)
        = pre ++ s := by
  induction s with
  | nil =>
    intro u pre hlen _
    have hu : u = [] := List.length_eq_zero.mp (by simpa using hlen)
    simp [hu, rollbacksFrom]
  | cons a s ih =>
    intro u pre hlen hpt
    cases u with
    | nil => simp at hlen
    | cons b u =>
      have h0 : b.withVal a.val = a := by
        have := hpt 0 (by simp) (by simp)
        simpa using this
      have hlen' : u.length = s.length := by simpa using hlen
      have hpt' : ∀ (i : Nat) (hs : i < s.length) (hu : i < u.length),
          (u.get ⟨i, hu⟩).withVal ((s.get ⟨i, hs⟩).val) = s.get ⟨i, hs⟩ := by
        intro i hs hu
        have := hpt (i + 1) (Nat.succ_lt_succ hs) (Nat.succ_lt_succ hu)
        simpa using this
      have hstep :
          List.foldl (fun acc rb => setValAt acc rb.1 rb.2) (pre ++ b :: u)
              (rollbacksFrom pre.length (a :: s))
            = List.foldl (fun acc rb => setValAt acc rb.1 rb.2) (pre ++ a :: u)
              (rollbacksFrom (pre.length + 1) s) := by
        simp [rollbacksFrom, setValAt_append, h0]
      rw [hstep]
      have hrw : pre ++ a :: u = (pre ++ [a]) ++ u := by simp
      have hrw2 : pre.length + 1 = (pre ++ [a]).length := by simp
      rw [hrw, hrw2, ih u (pre ++ [a]) hlen' hpt']
      simp

theorem runRollbacks_restore {T P : Type} (s u : List (Entry T P))
    (hlen : u.length = s.length)
    (hpt : ∀ (i : Nat) (hs : i < s.length) (hu : i < u.length),
      (u.get ⟨i, hu⟩).withVal ((s.get ⟨i, hs⟩).val) = s.get ⟨i, hs⟩) :
    runRollbacks (rollbacksFrom 0 s) u = s := by
  have h := runRollbacks_restore_aux s u [] hlen hpt
  simpa [runRollbacks] using h

theorem rollback_after_applyUpdate {T P : Type} (mrg : T → T → T) (a : Action)
    (p : Payload T) (s : List (Entry T P)) :
    runRollbacks (applyUpdate mrg a p s).2 (applyUpdate mrg a p s).1 = s := by
  refine runRollbacks_restore s (List.map (applyEntry mrg a p) s) (by simp) ?_
  intro i hs hu
  simp only [List.get_eq_getElem, List.getElem_map]
  exact Entry.withVal_applyEntry_val mrg a p _

theorem runRollbacks_self {T P : Type} (s : List (Entry T P)) :
    runRollbacks (rollbacksFrom 0 s) s = s := by
  refine runRollbacks_restore s s rfl ?_
  intro i hs hu
  exact Entry.withVal_val_self _

/-- Claim C1: for every `applyUpdate` call, invoking the full returned
rollback list restores every affected binding to the exact value it held
immediately before the call, and invoking the full list a second time
produces no further change (the state after the second invocation equals
the state after the first). -/
theorem claim_C1_rollback_restores_and_idempotent {T P : Type} (mrg : T → T → T)
    (a : Action) (p : Payload T) (s : List (Entry T P)) :
    runRollbacks (applyUpdate mrg a p s).2 (applyUpdate mrg a p s).1 = s
    ∧ runRollbacks (applyUpdate mrg a p s).2
        (runRollbacks (applyUpdate mrg a p s).2 (applyUpdate mrg a p s).1)
      = runRollbacks (applyUpdate mrg a p s).2 (applyUpdate mrg a p s).1 := by
  have h1 := rollback_after_applyUpdate mrg a p s
  refine ⟨h1, ?_⟩
  rw [h1]
  exact runRollbacks_self s

/-- Claim C9: if change A's `applyUpdate` captured the pre-A state and
change B is applied on top of A, invoking A's rollback afterwards restores
the pre-A state exactly — B's effect is erased, because each rollback
writes the captured snapshot unconditionally. -/
theorem claim_C9_rollback_restores_snapshot_over_later_change {T P : Type}
    (mrg1 mrg2 : T → T → T) (a1 a2 : Action) (p1 p2 : Payload T)
    (s : List (Entry T P)) :
    runRollbacks (applyUpdate mrg1 a1 p1 s).2
        (applyUpdate mrg2 a2 p2 (applyUpdate mrg1 a1 p1 s).1).1
      = s := by
  refine runRollbacks_restore s
    (List.map (applyEntry mrg2 a2 p2) (List.map (applyEntry mrg1 a1 p1) s))
    (by simp) ?_
  intro i hs hu
  simp only [List.get_eq_getElem, List.getElem_map]
  exact Entry.withVal_applyEntry2_val mrg1 mrg2 a1 a2 p1 p2 _

theorem map_congr_all {α β : Type} (f g : α → β) :
    ∀ (l : List α), (∀ y ∈ l, f y = g y) → l.map f = l.map g := by
  intro l
  induction l with
  | nil => intro _; rfl
  | cons a l ih =>
    intro h
    simp only [List.map_cons, h a (by simp), ih (fun y hy => h y (by simp [hy]))]

theorem map_id_of_eq {α : Type} (f : α → α) :
    ∀ (l : List α), (∀ y ∈ l, f y = y) → l.map f = l := by
  intro l
  induction l with
  | nil => intro _; rfl
  | cons a l ih =>
    intro h
    simp only [List.map_cons, h a (by simp), ih (fun y hy => h y (by simp [hy]))]

theorem selMatch_syncPayload (g : Item → String) (tok : String) (resp it : Item) :
    selMatch g (syncPayload tok resp) it = decide (tokenOf it = some tok) := by
  cases h : it.optimistic <;>
    simp [selMatch, syncPayload, tokenOf, h, decide_eq_decide]

theorem syncReplace_map (mrg : Item → Item → Item) (g : Item → String)
    (tok : String) (resp : Item) :
    ∀ (l : List Item),
      applyCollectionUpdate mrg l .update (syncPayload tok resp) g
        = l.map (fun y => if tokenOf y = some tok then resp else y) := by
  intro l
  induction l with
  | nil => rfl
  | cons a l ih =>
    simp only [applyCollectionUpdate, List.map_cons] at ih ⊢
    refine congrArg₂ List.cons ?_ ih
    rcases hopt : a.optimistic with _ | m
    · simp [selMatch, syncPayload, tokenOf, hopt]
    · by_cases hid : m.id = tok
      · simp [selMatch, syncPayload, tokenOf, hopt, hid]
      · simp [selMatch, syncPayload, tokenOf, hopt, hid]

theorem syncReplace_collection (mrg : Item → Item → Item) (g : Item → String)
    (l₁ l₂ : List Item) (x resp : Item) (tok : String)
    (h1 : ∀ y ∈ l₁, tokenOf y ≠ some tok) (h2 : ∀ y ∈ l₂, tokenOf y ≠ some tok)
    (hx : tokenOf x = some tok) :
    applyCollectionUpdate mrg (l₁ ++ x :: l₂) .update (syncPayload tok resp) g
      = l₁ ++ resp :: l₂ := by
  rw [syncReplace_map, List.map_append, List.map_cons]
  rw [map_id_of_eq _ l₁ (fun y hy => if_neg (h1 y hy))]
  rw [map_id_of_eq _ l₂ (fun y hy => if_neg (h2 y hy))]
  rw [if_pos hx]

/-- Claim C10: `applyUpdate` returns exactly one rollback closure per
binding registered under the name, in iteration order — the i-th rollback
is the pair of position i and the i-th binding's previous value, whatever
the binding's kind (entity included, untouched actions included) and even
when the stored value is Absent — so the list's length equals the number
of bindings at call time. -/
theorem claim_C10_one_rollback_per_binding {T P : Type} (mrg : T → T → T)
    (a : Action) (p : Payload T) (s : List (Entry T P)) :
    (applyUpdate mrg a p s).2.length = s.length
    ∧ ∀ (i : Nat), (applyUpdate mrg a p s).2[i]? = (s[i]?).map (fun e => (i, e.val)) := by
  constructor
  · exact rollbacksFrom_length s 0
  · intro i
    simpa using rollbacksFrom_getElem? s 0 i

/-- Claim C2, counterexample: the claim as stated asserts that after the
sync-replace pass no item in the resulting collection carries token T,
for every remote response R.  The code's sync pass replaces the stamped
item with R verbatim, so when the response itself carries the token (for
example a server echoing back the submitted optimistic object), the
replacement still carries T: here the binding holds
`[stampItem itemA "tk"]`, the response is `stampItem itemB "tk"`, and the
resulting collection's only item carries token `"tk"`. -/
theorem claim_C2_counterexample :
    (applyUpdate (P := Nat) mergeItem Action.update
        (syncPayload "tk" (stampItem itemB "tk"))
        [Entry.collection idOf (some [stampItem itemA "tk"])]).1
      = [Entry.collection idOf (some [stampItem itemB "tk"])]
    ∧ tokenOf (stampItem itemB "tk") = some "tk"
    ∧ ∃ y ∈ [stampItem itemB "tk"], tokenOf y = some "tk" := by
  refine ⟨rfl, rfl, ?_⟩
  exact ⟨stampItem itemB "tk", by simp, rfl⟩

/-- Claim C2, amended: for a collection binding holding a list with exactly
one item carrying speculative token `tok`, the sync-replace pass
(`applyUpdate` with action `'update'`, the token-matching predicate and an
update function returning the response) replaces that item by the response
and leaves every other item unchanged; and — provided the response itself
does not carry token `tok` — no item of the resulting collection carries
token `tok`. -/
theorem claim_C2_amended_sync_replace {P : Type} (mrg : Item → Item → Item)
    (g : Item → String) (l₁ l₂ : List Item) (x resp : Item) (tok : String)
    (h1 : ∀ y ∈ l₁, tokenOf y ≠ some tok) (h2 : ∀ y ∈ l₂, tokenOf y ≠ some tok)
    (hx : tokenOf x = some tok) (hr : tokenOf resp ≠ some tok) :
    (applyUpdate (P := P) mrg Action.update (syncPayload tok resp)
        [Entry.collection g (some (l₁ ++ x :: l₂))]).1
      = [Entry.collection g (some (l₁ ++ resp :: l₂))]
    ∧ ∀ y ∈ l₁ ++ resp :: l₂, tokenOf y ≠ some tok := by
  constructor
  · show [Entry.collection g (some (applyCollectionUpdate mrg (l₁ ++ x :: l₂)
      .update (syncPayload tok resp) g))] = _
    rw [syncReplace_collection mrg g l₁ l₂ x resp tok h1 h2 hx]
  · intro y hy
    rcases List.mem_append.mp hy with hy1 | hy2
    · exact h1 y hy1
    · rcases List.mem_cons.mp hy2 with rfl | hy3
      · exact hr
      · exact h2 y hy3

/-- Claim C2, witness for the amended theorem: binding `[x, itemA]` with
`x = stampItem itemB "tk"` the only token-carrying item; the response
`itemR` replaces `x` and no resulting item carries `"tk"`. -/
theorem claim_C2_amended_witness :
    (applyUpdate (P := Nat) mergeItem Action.update (syncPayload "tk" itemR)
        [Entry.collection idOf (some ([] ++ stampItem itemB "tk" :: [itemA]))]).1
      = [Entry.collection idOf (some ([] ++ itemR :: [itemA]))]
    ∧ ∀ y ∈ [] ++ itemR :: [itemA], tokenOf y ≠ some "tk" :=
  claim_C2_amended_sync_replace mergeItem idOf [] [itemA] (stampItem itemB "tk")
    itemR "tk" (by simp) (by decide) (by decide) (by decide)

/-- Claim C3, counterexample: the claim asserts that a binding whose stored
value is Absent is never written — "regardless of binding kind and
regardless of action (including 'replace' with data present)".  But the
entity branch of `applyUpdate` handles `'replace'` with
`entry.setData(() => payload.data)`, writing unconditionally: an entity
binding holding `undefined` ends up holding the payload data. -/
theorem claim_C3_counterexample :
    (applyUpdate (P := Nat) mergeItem Action.replace ⟨some itemA, none, none, none⟩
        [Entry.entity none]).1
      = [Entry.entity (some itemA)]
    ∧ (Entry.entity (T := Item) (P := Nat) (some itemA)) ≠ Entry.entity none := by
  refine ⟨rfl, ?_⟩
  intro h
  simp at h

/-- Helper: the entity branch on an Absent value: only `'replace'` with
data present writes (the data); every other action/payload leaves the
value Absent. -/
theorem applyEntry_entity_none {T P : Type} (mrg : T → T → T) (a : Action)
    (p : Payload T) :
    applyEntry (P := P) mrg a p (.entity none)
      = .entity (if a = Action.replace then p.data else none) := by
  cases a <;> cases hu : p.update <;> cases hd : p.data <;>
    simp [applyEntry, hu, hd]

/-- Claim C3, amended: a binding whose stored value is Absent is still
included in the scan (it contributes its rollback, restoring Absent) and
collection and paginated bindings are never written (the updater returns
`undefined` unchanged), and an Absent entity binding stays Absent for
every action except `'replace'`: `'replace'` writes `payload.data` (when
present) even over an Absent entity value. -/
theorem claim_C3_amended_absent_binding {T P : Type} (mrg : T → T → T)
    (a : Action) (p : Payload T) (s : List (Entry T P)) (i : Nat) :
    ((applyUpdate mrg a p s).2[i]? = (s[i]?).map (fun e => (i, e.val)))
    ∧ (∀ g : T → String, s[i]? = some (.collection g none) →
        (applyUpdate mrg a p s).1[i]? = some (.collection g none))
    ∧ (∀ g : T → String, s[i]? = some (.paginated g none) →
        (applyUpdate mrg a p s).1[i]? = some (.paginated g none))
    ∧ (s[i]? = some (.entity none) →
        (applyUpdate mrg a p s).1[i]?
          = some (.entity (if a = Action.replace then p.data else none))) := by
  refine ⟨by simpa using rollbacksFrom_getElem? s 0 i, ?_, ?_, ?_⟩
  · intro g h
    simp [applyUpdate, List.getElem?_map, h, applyEntry]
  · intro g h
    simp [applyUpdate, List.getElem?_map, h, applyEntry]
  · intro h
    simp [applyUpdate, List.getElem?_map, h, applyEntry_entity_none]

/-- Claim C3, witness for the amended theorem: a not-yet-loaded collection
binding scanned by a `'prepend'` keeps its Absent value. -/
theorem claim_C3_amended_witness :
    (applyUpdate (P := Nat) mergeItem Action.prepend ⟨some itemB, none, none, none⟩
        [Entry.collection idOf none]).1[0]?
      = some (Entry.collection idOf none) :=
  (claim_C3_amended_absent_binding mergeItem Action.prepend
    ⟨some itemB, none, none, none⟩ [Entry.collection idOf none] 0).2.1 idOf rfl

/-- Claim C4, counterexample: the claim asserts that an `'update'`
instruction carrying only a partial item merges it into a present entity
value.  The entity branch of `applyUpdate` only ever applies
`payload.update`; with data `{b:'2'}` and no update function the stored
entity `{a:'1'}` is left unchanged, not replaced by the merge
`{a:'1', b:'2'}`. -/
theorem claim_C4_counterexample :
    (applyUpdate (P := Nat) mergeItem Action.update ⟨some itemDB, none, none, none⟩
        [Entry.entity (some itemVA)]).1
      = [Entry.entity (some itemVA)]
    ∧ mergeItem itemVA itemDB ≠ itemVA := by
  exact ⟨rfl, by decide⟩

/-- Claim C4, amended: for an entity binding whose value is present,
`'update'` with an update function replaces the value with
`update(value)`; `'update'` carrying only a partial item is a no-op at the
registry level — the shallow merge happens only through the mutation
coordinator, which synthesizes an update function merging the
marker-stamped partial item, yielding `merge(value, stamp(data, token))`;
`'replace'` with data substitutes the data; `'prepend'`, `'append'` and
`'delete'` leave the entity value unchanged. -/
theorem claim_C4_amended_entity_semantics {T P : Type} (mrg : T → T → T)
    (v d : T) (f : T → T) (dat : Option T) (oid : Option String)
    (w : Option (T → Bool)) (upd : Option (T → T)) (v0 d0 : Item)
    (tok : String) (sy : Bool) :
    (applyUpdate (P := P) mrg Action.update ⟨dat, oid, w, some f⟩
        [Entry.entity (some v)]).1 = [Entry.entity (some (f v))]
    ∧ (applyUpdate (P := P) mrg Action.update ⟨some d, oid, w, none⟩
        [Entry.entity (some v)]).1 = [Entry.entity (some v)]
    ∧ (applyUpdate (P := Nat) mergeItem Action.update
        (mkOnMutatePayload ⟨Action.update, some d0, none, none, none, sy⟩ tok)
        [Entry.entity (some v0)]).1
      = [Entry.entity (some (mergeItem v0 (stampItem d0 tok)))]
    ∧ (applyUpdate (P := P) mrg Action.replace ⟨some d, oid, w, upd⟩
        [Entry.entity (some v)]).1 = [Entry.entity (some d)]
    ∧ (applyUpdate (P := P) mrg Action.prepend ⟨some d, oid, w, upd⟩
        [Entry.entity (some v)]).1 = [Entry.entity (some v)]
    ∧ (applyUpdate (P := P) mrg Action.append ⟨some d, oid, w, upd⟩
        [Entry.entity (some v)]).1 = [Entry.entity (some v)]
    ∧ (applyUpdate (P := P) mrg Action.delete ⟨some d, oid, w, upd⟩
        [Entry.entity (some v)]).1 = [Entry.entity (some v)] := by
  exact ⟨rfl, rfl, rfl, rfl, rfl, rfl, rfl⟩

/-- Claim C5, counterexample: the claim asserts distinct tokens for two
distinct speculative changes "whether through the same CollectionChannel
instance or different ones".  A `CollectionChannel` draws its
`optimisticId` once, at construction; two `prepend` calls on the same
instance stamp the same token on both items. -/
theorem claim_C5_counterexample :
    (chPrepend "t1" itemB ((chPrepend "t1" itemA
        [Entry.collection idOf (some [])]).1)).1
      = [Entry.collection idOf (some [stampItem itemB "t1", stampItem itemA "t1"])]
    ∧ tokenOf (stampItem itemB "t1") = tokenOf (stampItem itemA "t1") := by
  exact ⟨rfl, rfl⟩

/-- Claim C5, amended: tokens are unique per channel instance (standalone
API) or per mutation invocation (batched API), not per logical change:
two prepends through channel instances whose `nanoid()` tokens differ
stamp distinct tokens, two prepends through one instance share its token,
and within one `useMutation` batch every stamped item carries the single
`optimisticId` drawn in `onMutate`. -/
theorem claim_C5_amended_token_per_instance (g : Item → String) (l : List Item)
    (t1 t2 : String) (d1 d2 : Item) (hne : t1 ≠ t2) :
    (chPrepend t2 d2 ((chPrepend t1 d1 [Entry.collection g (some l)]).1)).1
      = [Entry.collection g (some (stampItem d2 t2 :: stampItem d1 t1 :: l))]
    ∧ tokenOf (stampItem d2 t2) ≠ tokenOf (stampItem d1 t1)
    ∧ ∀ (tx : Tx) (tok : String) (d : Item), tx.data = some d →
        (mkOnMutatePayload tx tok).data = some (stampItem d tok)
        ∧ tokenOf (stampItem d tok) = some tok := by
  refine ⟨rfl, ?_, ?_⟩
  · intro h
    apply hne
    simp [tokenOf, stampItem] at h
    exact h.symm
  · intro tx tok d hd
    exact ⟨by simp [mkOnMutatePayload, hd], rfl⟩

/-- Claim C5, witness for the amended theorem: two channel instances with
tokens `"t1"` and `"t2"`. -/
theorem claim_C5_amended_witness :
    (chPrepend "t2" itemB ((chPrepend "t1" itemA
        [Entry.collection idOf (some [])]).1)).1
      = [Entry.collection idOf (some [stampItem itemB "t2", stampItem itemA "t1"])]
    ∧ tokenOf (stampItem itemB "t2") ≠ tokenOf (stampItem itemA "t1") :=
  ⟨(claim_C5_amended_token_per_instance idOf [] "t1" "t2" itemA itemB (by decide)).1,
   (claim_C5_amended_token_per_instance idOf [] "t1" "t2" itemA itemB (by decide)).2.1⟩

/-- Claim C6, counterexample: `CollectionChannel.prepend` stamps the
`_optimistic` marker onto the supplied data before prepending, so the
binding does not store exactly `[{id:'2',name:'b'}, {id:'1',name:'a'}]`:
the stored head carries the marker and differs from the supplied item. -/
theorem claim_C6_counterexample :
    (chPrepend "tk" itemB [Entry.collection idOf (some [itemA])]).1
      = [Entry.collection idOf (some [stampItem itemB "tk", itemA])]
    ∧ stampItem itemB "tk" ≠ itemB
    ∧ [stampItem itemB "tk", itemA] ≠ [itemB, itemA] := by
  exact ⟨rfl, by decide, by decide⟩

/-- Claim C6, amended: for a registered collection binding storing
`[{id:'1',name:'a'}]`, `CollectionChannel.prepend({id:'2',name:'b'})`
leaves the binding storing the supplied item with the channel's
`_optimistic` marker `{id: token, status:'pending'}` added, followed by
the untouched `{id:'1',name:'a'}`; invoking the returned rollback restores
exactly `[{id:'1',name:'a'}]`. -/
theorem claim_C6_amended_prepend_stamps_marker (tok : String) :
    (chPrepend tok itemB [Entry.collection idOf (some [itemA])]).1
      = [Entry.collection idOf (some [stampItem itemB tok, itemA])]
    ∧ runRollbacks (chPrepend tok itemB [Entry.collection idOf (some [itemA])]).2
        (chPrepend tok itemB [Entry.collection idOf (some [itemA])]).1
      = [Entry.collection idOf (some [itemA])] := by
  exact ⟨rfl, rollback_after_applyUpdate mergeItem .prepend _ _⟩

/-- Claim C7, counterexample: the claim quantifies over every update
instruction carrying both a `targetId` and a predicate.  The code's
selector is `payload.id ? getId(item) === payload.id : payload.where?.(item)`,
a JS truthiness test, so the empty-string `targetId` falls through to the
predicate: with `targetId = ''` and an always-true predicate, the item
with id `'x'` (which does not match the targetId) is transformed. -/
theorem claim_C7_counterexample :
    applyCollectionUpdate mergeItem [itemX] Action.update
        ⟨none, some "", some (fun _ => true), some (fun _ => itemY)⟩ idOf
      = [itemY]
    ∧ idOf itemX ≠ ""
    ∧ itemY ≠ itemX := by
  exact ⟨rfl, by decide, by decide⟩

/-- Claim C7, amended: for an `'update'` instruction carrying a
*non-empty* `targetId` and a predicate, exactly the items whose extracted
id equals the targetId are transformed (by the update function if present,
else by merging the partial data), and every other item — the predicate
notwithstanding — is unchanged; an empty-string `targetId` is treated as
absent by JS truthiness and the predicate decides instead. -/
theorem claim_C7_amended_targetId_precedence {T : Type} (mrg : T → T → T)
    (getId : T → String) (items : List T) (tid : String) (w : T → Bool)
    (dat : Option T) (upd : Option (T → T)) (htid : tid ≠ "") :
    applyCollectionUpdate mrg items Action.update ⟨dat, some tid, some w, upd⟩ getId
      = items.map (fun it =>
          if getId it = tid then
            match upd with
            | some f => f it
            | none =>
              match dat with
              | some d => mrg it d
              | none => it
          else it) := by
  simp only [applyCollectionUpdate]
  apply map_congr_all
  intro y _
  by_cases hm : getId y = tid
  · simp [selMatch, htid, hm]
  · simp [selMatch, htid, hm]

/-- Claim C7, witness for the amended theorem: targetId `'x'` with an
always-true predicate transforms the matching item and only it. -/
theorem claim_C7_amended_witness :
    applyCollectionUpdate mergeItem [itemX, itemA] Action.update
        ⟨none, some "x", some (fun _ => true), some (fun _ => itemY)⟩ idOf
      = [itemY, itemA] :=
  claim_C7_amended_targetId_precedence mergeItem idOf [itemX, itemA] "x"
    (fun _ => true) none (some (fun _ => itemY)) (by decide)

/-- Claim C8: for a paginated binding whose stored pages are non-empty,
any `applyUpdate` rewrites only page index 0 (by the collection update
rules); every later page and the `pageParams` pass through unchanged. -/
theorem claim_C8_paginated_first_page_only {T P : Type} (mrg : T → T → T)
    (a : Action) (p : Payload T) (s : List (Entry T P)) (i : Nat)
    (g : T → String) (p0 : List T) (rest : List (List T)) (params : List P)
    (h : s[i]? = some (.paginated g (some ⟨p0 :: rest, params⟩))) :
    (applyUpdate mrg a p s).1[i]?
      = some (.paginated g
          (some ⟨applyCollectionUpdate mrg p0 a p g :: rest, params⟩)) := by
  simp [applyUpdate, List.getElem?_map, h, applyEntry]

/-- Claim C8, witness: a two-page paginated binding; a `'prepend'` touches
only the first page, the second page and the page parameters survive. -/
theorem claim_C8_witness :
    (applyUpdate (P := Nat) mergeItem Action.prepend ⟨some itemB, none, none, none⟩
        [Entry.paginated idOf (some ⟨[[itemA], [itemX]], [1, 2]⟩)]).1[0]?
      = some (Entry.paginated idOf (some ⟨[[itemB, itemA], [itemX]], [1, 2]⟩)) :=
  claim_C8_paginated_first_page_only mergeItem Action.prepend
    ⟨some itemB, none, none, none⟩
    [Entry.paginated idOf (some ⟨[[itemA], [itemX]], [1, 2]⟩)] 0 idOf
    [itemA] [[itemX]] [1, 2] rfl

end QueryOpt
